import Mathlib

/-!
Verification of the ride-matching and settlement engine of `ride_share2.py`.

The Python source works on ordinary numbers (floats); the embedding idealises
them as rationals (`ℚ`) for all program state, and states the geometric
claims over the real Euclidean distance (`Real.sqrt`).  `round(x, 2)` is
modelled as `round (x * 100) / 100`.

The program's `math.dist` comparisons and the stored fare are kept
computable by working with squared distances (`dist2`) and an exact
integer square-root rounding (`ratSqrtRound`); the lemmas `ratSqrtRound_eq`
and `fareQ_eq` prove these agree with the real-number formulas
`Real.sqrt` / `round (dist * rate * 100) / 100`, so every definition below
evaluates on concrete inputs while the theorems speak about genuine
Euclidean distance.
-/

/-- A 2D coordinate, as passed around as tuples in the source. -/
abbrev Point : Type := ℚ × ℚ

/-- Squared Euclidean distance between two points (the square of
`math.dist`); the source only compares distances and multiplies them by a
rate, and both uses are recovered exactly from the square. -/
def dist2 (p q : Point) : ℚ :=
  (p.1 - q.1) ^ 2 + (p.2 - q.2) ^ 2

/-- Real Euclidean distance (`math.dist` idealised over ℝ). -/
noncomputable def euclidDist (p q : Point) : ℝ :=
  Real.sqrt (((p.1 : ℝ) - (q.1 : ℝ)) ^ 2 + ((p.2 : ℝ) - (q.2 : ℝ)) ^ 2)

/-- Rounding to two decimal places, the spec's `round(x, 2)`. -/
noncomputable def round2 (x : ℝ) : ℚ :=
  ((round (x * 100) : ℤ) : ℚ) / 100

/-- Exact `⌊√m⌋` of a nonnegative rational, computably. -/
def ratSqrtFloor (m : ℚ) : ℕ :=
  Nat.sqrt (m.num.toNat * m.den) / m.den

/-- Exact `round (√m)` of a nonnegative rational, computably. -/
def ratSqrtRound (m : ℚ) : ℕ :=
  let k := ratSqrtFloor m
  if 4 * m < ((2 * k + 1 : ℕ) : ℚ) ^ 2 then k else k + 1

/-- The fare formula of `Ride.calculate_fare`:
`round(math.dist(s, e) * rate, 2)`, computed exactly (for the
nonnegative rates the program uses); see `fareQ_eq`. -/
def fareQ (s e : Point) (rate : ℚ) : ℚ :=
  (ratSqrtRound (dist2 s e * (100 * rate) ^ 2) : ℚ) / 100

lemma dist2_nonneg (p q : Point) : 0 ≤ dist2 p q := by
  unfold dist2; positivity

lemma edist_eq_sqrt (p q : Point) : euclidDist p q = Real.sqrt ((dist2 p q : ℚ) : ℝ) := by
  unfold euclidDist dist2
  congr 1
  push_cast
  ring

lemma ratSqrtFloor_bounds {m : ℚ} (hm : 0 ≤ m) :
    ((ratSqrtFloor m : ℕ) : ℝ) ≤ Real.sqrt ((m : ℚ) : ℝ) ∧
      Real.sqrt ((m : ℚ) : ℝ) < (ratSqrtFloor m : ℕ) + 1 := by
  set a : ℕ := m.num.toNat with ha
  set b : ℕ := m.den with hb
  have hb0 : 0 < b := m.pos
  have hbR : (0 : ℝ) < (b : ℝ) := by exact_mod_cast hb0
  have hnum : (m.num : ℚ) = (a : ℚ) := by
    rw [ha]
    exact_mod_cast (Int.toNat_of_nonneg (Rat.num_nonneg.2 hm)).symm
  have hcast : ((m : ℚ) : ℝ) = (a : ℝ) / (b : ℝ) := by
    rw [Rat.cast_def]
    have h1 : ((m.num : ℤ) : ℝ) = (a : ℝ) := by exact_mod_cast hnum
    rw [h1, hb]
  set s : ℕ := Nat.sqrt (a * b) with hs
  have key : Real.sqrt ((m : ℚ) : ℝ) * (b : ℝ) = Real.sqrt ((a * b : ℕ) : ℝ) := by
    have hab : ((a * b : ℕ) : ℝ) = ((m : ℚ) : ℝ) * ((b : ℝ)) ^ 2 := by
      rw [hcast]
      push_cast
      field_simp
      ring
    rw [hab, Real.sqrt_mul (by positivity) (((b : ℝ)) ^ 2), Real.sqrt_sq hbR.le]
  have hsl : ((s : ℕ) : ℝ) ≤ Real.sqrt ((a * b : ℕ) : ℝ) := by
    rw [hs]; exact Real.nat_sqrt_le_real_sqrt
  have hsu : Real.sqrt ((a * b : ℕ) : ℝ) < (s : ℝ) + 1 := by
    rw [hs]; exact Real.real_sqrt_lt_nat_sqrt_succ
  have hkdef : ratSqrtFloor m = s / b := by
    unfold ratSqrtFloor
    rw [← ha, ← hb, ← hs]
  set k : ℕ := ratSqrtFloor m with hk
  have hkb_le_s : k * b ≤ s := by
    rw [hkdef]; exact Nat.div_mul_le_self s b
  have hs_lt : s < (k + 1) * b := by
    have hmod := Nat.div_add_mod s b
    have hmlt : s % b < b := Nat.mod_lt s hb0
    rw [hkdef]
    calc s = b * (s / b) + s % b := hmod.symm
      _ < b * (s / b) + b := by omega
      _ = (s / b + 1) * b := by ring
  constructor
  · have h1 : ((k : ℕ) : ℝ) * (b : ℝ) ≤ Real.sqrt ((m : ℚ) : ℝ) * (b : ℝ) := by
      rw [key]
      calc ((k : ℕ) : ℝ) * (b : ℝ) = ((k * b : ℕ) : ℝ) := by push_cast; ring
        _ ≤ ((s : ℕ) : ℝ) := by exact_mod_cast hkb_le_s
        _ ≤ Real.sqrt ((a * b : ℕ) : ℝ) := hsl
    exact le_of_mul_le_mul_right h1 hbR
  · have h2 : Real.sqrt ((m : ℚ) : ℝ) * (b : ℝ) < (((k : ℕ) : ℝ) + 1) * (b : ℝ) := by
      rw [key]
      calc Real.sqrt ((a * b : ℕ) : ℝ) < (s : ℝ) + 1 := hsu
        _ ≤ (((k + 1) * b : ℕ) : ℝ) := by exact_mod_cast hs_lt
        _ = (((k : ℕ) : ℝ) + 1) * (b : ℝ) := by push_cast; ring
    exact lt_of_mul_lt_mul_right h2 hbR.le

lemma ratSqrtRound_eq {m : ℚ} (hm : 0 ≤ m) :
    ((ratSqrtRound m : ℕ) : ℤ) = round (Real.sqrt ((m : ℚ) : ℝ)) := by
  obtain ⟨h1, h2⟩ := ratSqrtFloor_bounds hm
  set k : ℕ := ratSqrtFloor m with hk
  have hmR : (0 : ℝ) ≤ ((m : ℚ) : ℝ) := by exact_mod_cast hm
  unfold ratSqrtRound
  rw [← hk]
  by_cases hc : 4 * m < ((2 * k + 1 : ℕ) : ℚ) ^ 2
  · rw [if_pos hc]
    have hcR : 4 * ((m : ℚ) : ℝ) < ((2 * (k : ℝ) + 1)) ^ 2 := by
      have hc' := hc
      push_cast at hc'
      have : ((4 * m : ℚ) : ℝ) < (((2 * (k : ℚ) + 1) ^ 2 : ℚ) : ℝ) := by
        exact_mod_cast hc'
      push_cast at this
      linarith
    have hlt : Real.sqrt ((m : ℚ) : ℝ) < (k : ℝ) + 1 / 2 := by
      rw [Real.sqrt_lt' (by positivity)]
      nlinarith
    rw [round_eq]
    symm
    rw [Int.floor_eq_iff]
    constructor
    · push_cast
      linarith
    · push_cast
      linarith
  · rw [if_neg hc]
    have hcR : ((2 * (k : ℝ) + 1)) ^ 2 ≤ 4 * ((m : ℚ) : ℝ) := by
      have hq : ((2 * k + 1 : ℕ) : ℚ) ^ 2 ≤ 4 * m := le_of_not_lt hc
      push_cast at hq
      have : (((2 * (k : ℚ) + 1) ^ 2 : ℚ) : ℝ) ≤ ((4 * m : ℚ) : ℝ) := by
        exact_mod_cast hq
      push_cast at this
      linarith
    have hge : (k : ℝ) + 1 / 2 ≤ Real.sqrt ((m : ℚ) : ℝ) := by
      rw [Real.le_sqrt (by positivity) hmR]
      nlinarith
    rw [round_eq]
    symm
    rw [Int.floor_eq_iff]
    constructor
    · push_cast
      linarith
    · push_cast
      linarith

/-- The computable fare agrees with the spec formula
`round(EuclideanDistance(s, e) * rate, 2)` for nonnegative rates. -/
lemma fareQ_eq (s e : Point) (rate : ℚ) (hrate : 0 ≤ rate) :
    fareQ s e rate = round2 (euclidDist s e * (rate : ℝ)) := by
  unfold fareQ round2
  have hM : 0 ≤ dist2 s e * (100 * rate) ^ 2 := by
    have := dist2_nonneg s e
    positivity
  have hround := ratSqrtRound_eq hM
  have hsqrt : Real.sqrt (((dist2 s e * (100 * rate) ^ 2 : ℚ) : ℝ)) =
      euclidDist s e * (rate : ℝ) * 100 := by
    rw [edist_eq_sqrt]
    have hx : (((dist2 s e * (100 * rate) ^ 2 : ℚ) : ℝ)) =
        ((dist2 s e : ℚ) : ℝ) * (((100 * rate : ℚ) : ℝ)) ^ 2 := by
      push_cast
      ring
    rw [hx, Real.sqrt_mul (by exact_mod_cast dist2_nonneg s e),
      Real.sqrt_sq (by positivity)]
    push_cast
    ring
  rw [hsqrt] at hround
  congr 1
  exact_mod_cast hround

/-! ## Data model

The classes of `ride_share2.py`, embedded functionally: object mutation
becomes explicit state passing, object identity becomes the `User`
id (`_id`) for drivers and the position in the driver pool list, and
`datetime.now()` becomes an explicit time argument.  `print` output that
distinguishes the two branches of `end_ride` is kept as `EndOutcome`;
a Python method that returns `None` on failure is embedded as `Option`.
-/

/-- `Vehicle`: type tag, license plate, per-distance rate, availability
flag (a string in the source, `'available'` at construction). -/
structure Vehicle where
  vehicle_type : String
  license_plate : String
  rate : ℚ
  status : String
deriving DecidableEq, Repr

/-- `Car(license_plate)`: `super().__init__('car', license_plate, 15)`. -/
def Car (plate : String) : Vehicle :=
  { vehicle_type := "car", license_plate := plate, rate := 15, status := "available" }

/-- `Bike(license_plate)`: rate 8. -/
def Bike (plate : String) : Vehicle :=
  { vehicle_type := "bike", license_plate := plate, rate := 8, status := "available" }

/-- `CNG(license_plate)`: rate 5. -/
def CNG (plate : String) : Vehicle :=
  { vehicle_type := "cng", license_plate := plate, rate := 5, status := "available" }

/-- `start_drive` (all three subclasses): sets the status to `'unavailable'`. -/
def Vehicle.start_drive (v : Vehicle) : Vehicle :=
  { v with status := "unavailable" }

/-- `Ride`: the driver reference is embedded as the driver's `_id`
(`none` until `set_driver`), timestamps as optional rationals. -/
structure Ride where
  start_location : Point
  end_location : Point
  driver : Option ℕ
  rider : ℕ
  vehicle : Vehicle
  start_time : Option ℚ
  end_time : Option ℚ
  estimated_fare : ℚ
deriving DecidableEq, Repr

/-- `Ride.calculate_fare`: `round(math.dist(start, end) * vehicle.rate, 2)`. -/
def Ride.calculate_fare (r : Ride) : ℚ :=
  fareQ r.start_location r.end_location r.vehicle.rate

/-- `Ride.__init__`: driver unset, timestamps unset, and
`self.estimated_fare = self.calculate_fare()`. -/
def mkRide (s e : Point) (riderId : ℕ) (v : Vehicle) : Ride :=
  { start_location := s, end_location := e, driver := none, rider := riderId,
    vehicle := v, start_time := none, end_time := none,
    estimated_fare := fareQ s e v.rate }

lemma mkRide_fare (s e : Point) (riderId : ℕ) (v : Vehicle) :
    (mkRide s e riderId v).estimated_fare = (mkRide s e riderId v).calculate_fare := rfl

/-- `Ride.set_driver`. -/
def Ride.set_driver (r : Ride) (driverId : ℕ) : Ride :=
  { r with driver := some driverId }

/-- `Ride.start_ride`: `self.start_time = datetime.now()` — unconditional,
no state check. -/
def Ride.start_ride (r : Ride) (now : ℚ) : Ride :=
  { r with start_time := some now }

/-- `Rider`: a `User` (name, email, nid, id, wallet) plus current location
and current ride. -/
structure Rider where
  name : String
  email : String
  nid : String
  id : ℕ
  current_location : Point
  wallet : ℚ
  current_ride : Option Ride
deriving DecidableEq, Repr

/-- `Rider.load_cash`: adds the amount iff it is strictly positive. -/
def Rider.load_cash (r : Rider) (amount : ℚ) : Rider :=
  if 0 < amount then { r with wallet := r.wallet + amount } else r

/-- `Driver`: a `User` plus current location, vehicle, rating list and
current ride (`wallet` starts at 0 in `User.__init__`). -/
structure Driver where
  name : String
  email : String
  nid : String
  id : ℕ
  current_location : Point
  vehicle : Vehicle
  rating : List ℚ
  current_ride : Option Ride
  wallet : ℚ
deriving DecidableEq, Repr

/-- `Driver.add_rating`: appends unconditionally (no range check). -/
def Driver.add_rating (d : Driver) (rate : ℚ) : Driver :=
  { d with rating := d.rating ++ [rate] }

/-- `Driver.update_location`. -/
def Driver.update_location (d : Driver) (p : Point) : Driver :=
  { d with current_location := p }

/-- `Driver.accept_ride`: `self.current_ride = ride; ride.set_driver(self)`.
Through Python aliasing the ride stored in the driver is the ride with its
driver field set; the pair returned is (updated driver, updated ride). -/
def Driver.accept_ride (d : Driver) (r : Ride) : Driver × Ride :=
  let r' := r.set_driver d.id
  ({ d with current_ride := some r' }, r')

/-- The observable outcome of `Ride.end_ride`: which of the two `print`
branches ran (`"Ride ended..."` vs `"Not enough balance!"`). -/
inductive EndOutcome where
  | rideEnded
  | notEnoughBalance
deriving DecidableEq, Repr

/-- `Ride.end_ride(rating)`:
`self.end_time = datetime.now()` first (unconditionally), then the wallet
check; on success the fare moves from rider to driver and the rating is
appended.  Returns (ride, rider, driver, outcome). -/
def end_ride (r : Ride) (rider : Rider) (driver : Driver) (rating : ℚ)
    (now : ℚ) : Ride × Rider × Driver × EndOutcome :=
  let r' := { r with end_time := some now }
  let fare := r.estimated_fare
  if fare ≤ rider.wallet then
    (r', { rider with wallet := rider.wallet - fare },
      (Driver.add_rating { driver with wallet := driver.wallet + fare } rating),
      EndOutcome.rideEnded)
  else
    (r', rider, driver, EndOutcome.notEnoughBalance)

/-- `RideRequest`. -/
structure RideRequest where
  rider : Rider
  destination : Point
deriving DecidableEq, Repr

/-- One iteration of the `find_driver` loop body: skip drivers whose
vehicle is not `'available'`; otherwise replace the tracked closest driver
iff the new distance is strictly smaller (`dist < min_distance`) — the
comparison is made on squared distances, which orders identically.
The accumulator carries (pool index, driver, squared distance),
`none` standing for `min_distance = inf`. -/
def scanStep (loc : Point) (i : ℕ) (d : Driver)
    (acc : Option (ℕ × Driver × ℚ)) : Option (ℕ × Driver × ℚ) :=
  if d.vehicle.status = "available" then
    match acc with
    | none => some (i, d, dist2 d.current_location loc)
    | some (j, e, m) =>
        if dist2 d.current_location loc < m then
          some (i, d, dist2 d.current_location loc)
        else
          some (j, e, m)
  else acc

/-- The `for driver in self.available_drivers` loop of `find_driver`. -/
def findClosestAux (loc : Point) : List Driver → ℕ → Option (ℕ × Driver × ℚ) →
    Option (ℕ × Driver × ℚ)
  | [], _, acc => acc
  | d :: rest, i, acc => findClosestAux loc rest (i + 1) (scanStep loc i d acc)

/-- The selection made by `RideMatching.find_driver`'s scan: the closest
available driver and its pool position, if any. -/
def selectDriver (pool : List Driver) (loc : Point) : Option (ℕ × Driver) :=
  (findClosestAux loc pool 0 none).map fun x => (x.1, x.2.1)

/-- `RideMatching.find_driver(ride_request)`: on success builds the `Ride`
from the rider's current location, the destination and the chosen driver's
vehicle, calls `accept_ride` on the chosen driver, and returns the ride;
the driver pool (`self.available_drivers`) with the chosen driver updated
in place is returned alongside.  On failure returns `None`. -/
def find_driver (pool : List Driver) (req : RideRequest) :
    Option (Ride × List Driver) :=
  match selectDriver pool req.rider.current_location with
  | some (i, d) =>
      let ride := mkRide req.rider.current_location req.destination req.rider.id d.vehicle
      let p := d.accept_ride ride
      some (p.2, pool.set i p.1)
  | none => none

/-- `Rider.request_ride(destination, ride_matching)`: only acts when the
rider has no current ride; stores `find_driver`'s result (possibly `None`)
in `current_ride`.  Returns (rider, driver pool). -/
def request_ride (r : Rider) (destination : Point) (pool : List Driver) :
    Rider × List Driver :=
  if r.current_ride = none then
    match find_driver pool { rider := r, destination := destination } with
    | some (ride, pool') => ({ r with current_ride := some ride }, pool')
    | none => ({ r with current_ride := none }, pool)
  else (r, pool)

/-! ## Characterisation of the `find_driver` scan -/

lemma scanStep_skip {loc : Point} {i0 : ℕ} {acc : Option (ℕ × Driver × ℚ)}
    {d0 : Driver} (hav : ¬ d0.vehicle.status = "available") :
    scanStep loc i0 d0 acc = acc := by
  unfold scanStep
  rw [if_neg hav]

lemma scanStep_first {loc : Point} {i0 : ℕ} {d0 : Driver}
    (hav : d0.vehicle.status = "available") :
    scanStep loc i0 d0 none = some (i0, d0, dist2 d0.current_location loc) := by
  unfold scanStep
  rw [if_pos hav]

lemma scanStep_improve {loc : Point} {i0 ja : ℕ} {ea : Driver} {ma : ℚ}
    {d0 : Driver} (hav : d0.vehicle.status = "available")
    (hlt : dist2 d0.current_location loc < ma) :
    scanStep loc i0 d0 (some (ja, ea, ma)) =
      some (i0, d0, dist2 d0.current_location loc) := by
  unfold scanStep
  rw [if_pos hav]
  exact if_pos hlt

lemma scanStep_keep {loc : Point} {i0 ja : ℕ} {ea : Driver} {ma : ℚ}
    {d0 : Driver} (hav : d0.vehicle.status = "available")
    (hlt : ¬ dist2 d0.current_location loc < ma) :
    scanStep loc i0 d0 (some (ja, ea, ma)) = some (ja, ea, ma) := by
  unfold scanStep
  rw [if_pos hav]
  exact if_neg hlt

/-- Invariant of the loop accumulator: a tracked candidate sits at an
already-scanned position, is available, and carries its own squared
distance. -/
def AccOK (loc : Point) (i0 : ℕ) : Option (ℕ × Driver × ℚ) → Prop
  | none => True
  | some (i, d, m) => i < i0 ∧ d.vehicle.status = "available" ∧
      m = dist2 d.current_location loc

lemma AccOK_mono {loc : Point} {i0 i1 : ℕ} {acc : Option (ℕ × Driver × ℚ)}
    (h : AccOK loc i0 acc) (hle : i0 ≤ i1) : AccOK loc i1 acc := by
  rcases acc with _ | ⟨⟨i, d, m⟩⟩
  · trivial
  · obtain ⟨h1, h2, h3⟩ := h
    exact ⟨lt_of_lt_of_le h1 hle, h2, h3⟩

lemma scanStep_accOK {loc : Point} {i0 : ℕ} {acc : Option (ℕ × Driver × ℚ)}
    (d0 : Driver) (hacc : AccOK loc i0 acc) :
    AccOK loc (i0 + 1) (scanStep loc i0 d0 acc) := by
  by_cases hav : d0.vehicle.status = "available"
  · rcases acc with _ | ⟨⟨ja, ea, ma⟩⟩
    · rw [scanStep_first hav]
      exact ⟨Nat.lt_succ_self i0, hav, rfl⟩
    · by_cases hlt : dist2 d0.current_location loc < ma
      · rw [scanStep_improve hav hlt]
        exact ⟨Nat.lt_succ_self i0, hav, rfl⟩
      · rw [scanStep_keep hav hlt]
        exact AccOK_mono hacc (Nat.le_succ i0)
  · rw [scanStep_skip hav]
    exact AccOK_mono hacc (Nat.le_succ i0)

lemma findClosestAux_spec (loc : Point) (l : List Driver) :
    ∀ (i0 : ℕ) (acc : Option (ℕ × Driver × ℚ)), AccOK loc i0 acc →
    AccOK loc (i0 + l.length) (findClosestAux loc l i0 acc) ∧
    (∀ i d m, findClosestAux loc l i0 acc = some (i, d, m) →
      (acc = some (i, d, m) ∨
        ∃ k, ∃ hk : k < l.length, i = i0 + k ∧ l.get ⟨k, hk⟩ = d) ∧
      (∀ ja ea ma, acc = some (ja, ea, ma) →
        ((i, d, m) = (ja, ea, ma) ∨ m < ma)) ∧
      (∀ k, ∀ hk : k < l.length,
        (l.get ⟨k, hk⟩).vehicle.status = "available" →
        m ≤ dist2 (l.get ⟨k, hk⟩).current_location loc ∧
        (i0 + k < i → m < dist2 (l.get ⟨k, hk⟩).current_location loc))) := by
  induction l with
  | nil =>
    intro i0 acc hacc
    refine ⟨by simpa using hacc, ?_⟩
    intro i d m hres
    simp only [findClosestAux] at hres
    refine ⟨Or.inl hres, ?_, ?_⟩
    · intro ja ea ma hacc2
      rw [hres] at hacc2
      exact Or.inl (Option.some.inj hacc2)
    · intro k hk
      exact absurd hk (by simp)
  | cons d0 rest ih =>
    intro i0 acc hacc
    have hacc' : AccOK loc (i0 + 1) (scanStep loc i0 d0 acc) := scanStep_accOK d0 hacc
    obtain ⟨IH1, IH2⟩ := ih (i0 + 1) (scanStep loc i0 d0 acc) hacc'
    have hunf : findClosestAux loc (d0 :: rest) i0 acc =
        findClosestAux loc rest (i0 + 1) (scanStep loc i0 d0 acc) := rfl
    constructor
    · rw [hunf]
      have hlen : i0 + (d0 :: rest).length = i0 + 1 + rest.length := by
        simp only [List.length_cons]
        omega
      rw [hlen]
      exact IH1
    · intro i d m hres
      rw [hunf] at hres
      obtain ⟨A, B, C⟩ := IH2 i d m hres
      -- the tail part of the minimality clause, shared by all cases below
      have Ctail : ∀ k', ∀ hk' : k' + 1 < (d0 :: rest).length,
          ((d0 :: rest).get ⟨k' + 1, hk'⟩).vehicle.status = "available" →
          m ≤ dist2 ((d0 :: rest).get ⟨k' + 1, hk'⟩).current_location loc ∧
          (i0 + (k' + 1) < i →
            m < dist2 ((d0 :: rest).get ⟨k' + 1, hk'⟩).current_location loc) := by
        intro k' hk' hkav
        have hk'' : k' < rest.length := by simpa using hk'
        have hC := C k' hk'' (by simpa using hkav)
        refine ⟨by simpa using hC.1, ?_⟩
        intro hlt'
        have := hC.2 (by omega)
        simpa using this
      have Atail : (∃ k, ∃ hk : k < rest.length, i = i0 + 1 + k ∧
            rest.get ⟨k, hk⟩ = d) →
          ∃ k, ∃ hk : k < (d0 :: rest).length, i = i0 + k ∧
            (d0 :: rest).get ⟨k, hk⟩ = d := by
        rintro ⟨k, hk, hik, hget⟩
        exact ⟨k + 1, by simpa using Nat.succ_lt_succ hk, by omega, by simpa using hget⟩
      by_cases hav : d0.vehicle.status = "available"
      · rcases acc with _ | ⟨⟨ja, ea, ma⟩⟩
        · -- acc = none: the head becomes the first candidate
          rw [scanStep_first hav] at A B
          refine ⟨?_, ?_, ?_⟩
          · rcases A with hA | hA
            · obtain ⟨h1, h2, h3⟩ : i0 = i ∧ d0 = d ∧
                  dist2 d0.current_location loc = m := by simpa using hA
              refine Or.inr ⟨0, by simp, by omega, ?_⟩
              simp only [List.get]
              exact h2
            · exact Or.inr (Atail hA)
          · intro ja ea ma hacc2
            exact absurd hacc2 (by simp)
          · intro k hk hkav
            match k with
            | 0 =>
              have hB := B i0 d0 (dist2 d0.current_location loc) rfl
              rcases hB with hB | hB
              · obtain ⟨h1, h2, h3⟩ : i = i0 ∧ d = d0 ∧
                    m = dist2 d0.current_location loc := by simpa using hB
                subst h1
                refine ⟨by simpa using le_of_eq h3, ?_⟩
                intro hlt'
                exact absurd hlt' (by omega)
              · exact ⟨by simpa using le_of_lt hB, fun _ => by simpa using hB⟩
            | k' + 1 => exact Ctail k' hk hkav
        · -- acc = some (ja, ea, ma)
          have haccP : ja < i0 ∧ ea.vehicle.status = "available" ∧
              ma = dist2 ea.current_location loc := hacc
          obtain ⟨hja, hea, hma⟩ := haccP
          by_cases hlt : dist2 d0.current_location loc < ma
          · -- the head strictly improves on the accumulator
            rw [scanStep_improve hav hlt] at A B
            refine ⟨?_, ?_, ?_⟩
            · rcases A with hA | hA
              · obtain ⟨h1, h2, h3⟩ : i0 = i ∧ d0 = d ∧
                    dist2 d0.current_location loc = m := by simpa using hA
                refine Or.inr ⟨0, by simp, by omega, ?_⟩
                simp only [List.get]
                exact h2
              · exact Or.inr (Atail hA)
            · intro ja' ea' ma' hacc2
              obtain ⟨g1, g2, g3⟩ : ja = ja' ∧ ea = ea' ∧ ma = ma' := by
                simpa using hacc2
              rw [← g3]
              have hB := B i0 d0 (dist2 d0.current_location loc) rfl
              rcases hB with hB | hB
              · obtain ⟨h1, h2, h3⟩ : i = i0 ∧ d = d0 ∧
                    m = dist2 d0.current_location loc := by simpa using hB
                refine Or.inr ?_
                rw [h3]
                exact hlt
              · exact Or.inr (lt_trans hB hlt)
            · intro k hk hkav
              match k with
              | 0 =>
                have hB := B i0 d0 (dist2 d0.current_location loc) rfl
                rcases hB with hB | hB
                · obtain ⟨h1, h2, h3⟩ : i = i0 ∧ d = d0 ∧
                      m = dist2 d0.current_location loc := by simpa using hB
                  subst h1
                  refine ⟨by simpa using le_of_eq h3, ?_⟩
                  intro hlt'
                  exact absurd hlt' (by omega)
                · exact ⟨by simpa using le_of_lt hB, fun _ => by simpa using hB⟩
              | k' + 1 => exact Ctail k' hk hkav
          · -- the head does not improve: accumulator kept
            rw [scanStep_keep hav hlt] at A B
            have hma_le : ma ≤ dist2 d0.current_location loc := le_of_not_lt hlt
            refine ⟨?_, ?_, ?_⟩
            · rcases A with hA | hA
              · exact Or.inl hA
              · exact Or.inr (Atail hA)
            · intro ja' ea' ma' hacc2
              obtain ⟨g1, g2, g3⟩ : ja = ja' ∧ ea = ea' ∧ ma = ma' := by
                simpa using hacc2
              rw [← g1, ← g2, ← g3]
              exact B ja ea ma rfl
            · intro k hk hkav
              match k with
              | 0 =>
                have hB := B ja ea ma rfl
                rcases hB with hB | hB
                · obtain ⟨h1, h2, h3⟩ : i = ja ∧ d = ea ∧ m = ma := by
                    simpa using hB
                  subst h1
                  refine ⟨by simpa using le_trans (le_of_eq h3) hma_le, ?_⟩
                  intro hlt'
                  exact absurd hlt' (by omega)
                · exact ⟨by simpa using le_trans (le_of_lt hB) hma_le,
                    fun _ => by simpa using lt_of_lt_of_le hB hma_le⟩
              | k' + 1 => exact Ctail k' hk hkav
      · -- the head is skipped
        rw [scanStep_skip hav] at A B
        refine ⟨?_, B, ?_⟩
        · rcases A with hA | hA
          · exact Or.inl hA
          · exact Or.inr (Atail hA)
        · intro k hk hkav
          match k with
          | 0 => exact absurd (by simpa using hkav) hav
          | k' + 1 => exact Ctail k' hk hkav

lemma findClosestAux_all_unavailable (loc : Point) (l : List Driver) :
    ∀ i0 : ℕ, (∀ d ∈ l, d.vehicle.status ≠ "available") →
    findClosestAux loc l i0 none = none := by
  induction l with
  | nil => intro i0 _; rfl
  | cons d0 rest ih =>
    intro i0 h
    have hav : ¬ d0.vehicle.status = "available" := h d0 (by simp)
    show findClosestAux loc rest (i0 + 1) (scanStep loc i0 d0 none) = none
    rw [scanStep_skip hav]
    exact ih (i0 + 1) fun d hd => h d (by simp [hd])

lemma selectDriver_spec {pool : List Driver} {loc : Point} {i : ℕ} {d : Driver}
    (h : selectDriver pool loc = some (i, d)) :
    ∃ hi : i < pool.length, pool.get ⟨i, hi⟩ = d ∧
      d.vehicle.status = "available" ∧
      (∀ k, ∀ hk : k < pool.length,
        (pool.get ⟨k, hk⟩).vehicle.status = "available" →
        dist2 d.current_location loc ≤
          dist2 (pool.get ⟨k, hk⟩).current_location loc ∧
        (k < i → dist2 d.current_location loc <
          dist2 (pool.get ⟨k, hk⟩).current_location loc)) := by
  obtain ⟨H1, H2⟩ := findClosestAux_spec loc pool 0 none trivial
  unfold selectDriver at h
  rcases hr : findClosestAux loc pool 0 none with _ | ⟨⟨i', d', m⟩⟩
  · rw [hr] at h
    exact absurd h (by simp)
  · rw [hr] at h
    obtain ⟨hi', hd'⟩ : i' = i ∧ d' = d := by simpa using h
    rw [hi', hd'] at hr
    rw [hr] at H1
    have H1' : i < 0 + pool.length ∧ d.vehicle.status = "available" ∧
        m = dist2 d.current_location loc := H1
    obtain ⟨hibound, hav, hm⟩ := H1'
    obtain ⟨Ha, _, Hc⟩ := H2 i d m hr
    have hi : i < pool.length := by omega
    refine ⟨hi, ?_, hav, ?_⟩
    · rcases Ha with hA | ⟨k, hk, hik, hget⟩
      · exact absurd hA (by simp)
      · have hfin : (⟨i, hi⟩ : Fin pool.length) = ⟨k, hk⟩ := by
          apply Fin.ext
          simp only []
          omega
        rw [hfin]
        exact hget
    · intro k hk hkav
      have hC := Hc k hk hkav
      rw [← hm]
      exact ⟨hC.1, fun hki => hC.2 (by omega)⟩

lemma selectDriver_of_no_available {pool : List Driver} {loc : Point}
    (h : ∀ d ∈ pool, d.vehicle.status ≠ "available") :
    selectDriver pool loc = none := by
  unfold selectDriver
  rw [findClosestAux_all_unavailable loc pool 0 h]
  rfl

lemma find_driver_eq_some {pool : List Driver} {req : RideRequest} {ride : Ride}
    {pool' : List Driver} (h : find_driver pool req = some (ride, pool')) :
    ∃ i d, selectDriver pool req.rider.current_location = some (i, d) ∧
      ride = { mkRide req.rider.current_location req.destination req.rider.id
                 d.vehicle with driver := some d.id } ∧
      pool' = pool.set i { d with current_ride := some ride } := by
  unfold find_driver at h
  rcases hs : selectDriver pool req.rider.current_location with _ | ⟨⟨i, d⟩⟩
  · rw [hs] at h
    exact absurd h (by simp)
  · rw [hs] at h
    obtain ⟨h1, h2⟩ :
        (d.accept_ride (mkRide req.rider.current_location req.destination
          req.rider.id d.vehicle)).2 = ride ∧
        pool.set i (d.accept_ride (mkRide req.rider.current_location
          req.destination req.rider.id d.vehicle)).1 = pool' := by
      simpa using h
    refine ⟨i, d, rfl, h1.symm, ?_⟩
    rw [← h2, ← h1]
    rfl

/-! ## Evaluation helpers for concrete inputs -/

lemma ratSqrtFloor_eq_of (m : ℚ) (s : ℕ) (hm : 0 ≤ m)
    (h1 : ((s : ℚ)) ^ 2 ≤ m) (h2 : m < ((s : ℚ) + 1) ^ 2) :
    ratSqrtFloor m = s := by
  obtain ⟨hl, hu⟩ := ratSqrtFloor_bounds hm
  have hmR : (0 : ℝ) ≤ ((m : ℚ) : ℝ) := by exact_mod_cast hm
  have hs_le : (s : ℝ) ≤ Real.sqrt ((m : ℚ) : ℝ) := by
    rw [Real.le_sqrt (by positivity) hmR]
    exact_mod_cast h1
  have hs_lt : Real.sqrt ((m : ℚ) : ℝ) < (s : ℝ) + 1 := by
    rw [Real.sqrt_lt' (by positivity)]
    exact_mod_cast h2
  have hk1 : ((ratSqrtFloor m : ℕ) : ℝ) < (s : ℝ) + 1 := lt_of_le_of_lt hl hs_lt
  have hk2 : (s : ℝ) < ((ratSqrtFloor m : ℕ) : ℝ) + 1 := lt_of_le_of_lt hs_le hu
  have hn1 : ratSqrtFloor m < s + 1 := by exact_mod_cast hk1
  have hn2 : s < ratSqrtFloor m + 1 := by exact_mod_cast hk2
  omega

lemma ratSqrtRound_eq_of_lt (m : ℚ) (s : ℕ) (hm : 0 ≤ m)
    (h1 : ((s : ℚ)) ^ 2 ≤ m) (h2 : m < ((s : ℚ) + 1) ^ 2)
    (hc : 4 * m < ((2 * s + 1 : ℕ) : ℚ) ^ 2) :
    ratSqrtRound m = s := by
  unfold ratSqrtRound
  rw [ratSqrtFloor_eq_of m s hm h1 h2]
  exact if_pos hc

lemma ratSqrtRound_eq_of_ge (m : ℚ) (s : ℕ) (hm : 0 ≤ m)
    (h1 : ((s : ℚ)) ^ 2 ≤ m) (h2 : m < ((s : ℚ) + 1) ^ 2)
    (hc : ¬ 4 * m < ((2 * s + 1 : ℕ) : ℚ) ^ 2) :
    ratSqrtRound m = s + 1 := by
  unfold ratSqrtRound
  rw [ratSqrtFloor_eq_of m s hm h1 h2]
  exact if_neg hc

/-- `round(math.dist((1,2),(4,6)) * 15, 2) = 75.00` (distance 5, rate 15):
the fare of the concrete rides used below. -/
lemma fareQ_demo : fareQ ((1 : ℚ), (2 : ℚ)) ((4 : ℚ), (6 : ℚ)) 15 = 75 := by
  unfold fareQ
  have hd : dist2 ((1 : ℚ), (2 : ℚ)) ((4 : ℚ), (6 : ℚ)) * (100 * 15) ^ 2 =
      56250000 := by
    norm_num [dist2]
  rw [hd, ratSqrtRound_eq_of_lt 56250000 7500 (by norm_num) (by norm_num)
    (by norm_num) (by norm_num)]
  norm_num

/-! ## Shared concrete scenario (mirrors the demo block of the source) -/

def rider1 : Rider :=
  { name := "Alice", email := "alice@email.com", nid := "1234", id := 1,
    current_location := (1, 2), wallet := 500, current_ride := none }

def dA : Driver :=
  { name := "Bob", email := "bob@email.com", nid := "5678", id := 2,
    current_location := (4, 6), vehicle := Car "CAR-A", rating := [],
    current_ride := none, wallet := 0 }

def dB : Driver :=
  { name := "John", email := "john@email.com", nid := "8910", id := 3,
    current_location := (1, 7), vehicle := Bike "BIKE-B", rating := [],
    current_ride := none, wallet := 0 }

def dC : Driver :=
  { name := "Carl", email := "carl@email.com", nid := "1112", id := 4,
    current_location := (1, 9), vehicle := CNG "CNG-C", rating := [],
    current_ride := none, wallet := 0 }

def pool1 : List Driver := [dA, dB, dC]

def req1 : RideRequest := { rider := rider1, destination := (4, 6) }

/-- The ride the demo match produces: driver `dA` (id 2) wins the
distance tie with `dB` (both at distance 5) because it comes first. -/
def ride1 : Ride :=
  { start_location := (1, 2), end_location := (4, 6), driver := some 2,
    rider := 1, vehicle := Car "CAR-A", start_time := none, end_time := none,
    estimated_fare := 75 }

def pool1' : List Driver := [{ dA with current_ride := some ride1 }, dB, dC]

lemma find_driver_demo : find_driver pool1 req1 = some (ride1, pool1') := by
  norm_num [find_driver, selectDriver, findClosestAux, scanStep, pool1, req1,
    rider1, dA, dB, dC, Car, Bike, CNG, dist2, mkRide, Driver.accept_ride,
    Ride.set_driver, ride1, pool1', fareQ_demo]

/-! ## Claim theorems -/

/-- The property C1 asserts of a successful match on `pool` for a rider at
`loc`: the ride is bound to an available driver of the pool that minimises
the Euclidean distance to `loc`, and every available driver strictly
earlier in iteration order is strictly farther away (first-wins
tie-break). -/
def NearestChoice (pool : List Driver) (loc : Point) (ride : Ride)
    (pool' : List Driver) : Prop :=
  ∃ i, ∃ hi : i < pool.length,
    (pool.get ⟨i, hi⟩).vehicle.status = "available" ∧
    ride.driver = some (pool.get ⟨i, hi⟩).id ∧
    ride.vehicle = (pool.get ⟨i, hi⟩).vehicle ∧
    pool' = pool.set i { pool.get ⟨i, hi⟩ with current_ride := some ride } ∧
    (∀ k, ∀ hk : k < pool.length,
      (pool.get ⟨k, hk⟩).vehicle.status = "available" →
      euclidDist (pool.get ⟨i, hi⟩).current_location loc ≤
        euclidDist (pool.get ⟨k, hk⟩).current_location loc ∧
      (k < i → euclidDist (pool.get ⟨i, hi⟩).current_location loc <
        euclidDist (pool.get ⟨k, hk⟩).current_location loc))

/-- Claim C1 (confirmed): whenever `find_driver` succeeds, the driver bound
to the returned ride is an available driver of the pool at minimal
Euclidean distance from the rider's current location, and among equally
distant available drivers the first in iteration order wins. -/
theorem find_driver_selects_nearest_available (pool : List Driver)
    (req : RideRequest) (ride : Ride) (pool' : List Driver)
    (h : find_driver pool req = some (ride, pool')) :
    NearestChoice pool req.rider.current_location ride pool' := by
  obtain ⟨i, d, hsel, hride, hpool⟩ := find_driver_eq_some h
  obtain ⟨hi, hget, hav, hmin⟩ := selectDriver_spec hsel
  refine ⟨i, hi, by rw [hget]; exact hav, ?_, ?_, ?_, ?_⟩
  · rw [hget, hride]
  · rw [hget, hride]
    rfl
  · rw [hget, hpool]
  · intro k hk hkav
    have hm := hmin k hk hkav
    rw [hget]
    constructor
    · rw [edist_eq_sqrt, edist_eq_sqrt]
      apply Real.sqrt_le_sqrt
      exact_mod_cast hm.1
    · intro hki
      rw [edist_eq_sqrt, edist_eq_sqrt]
      apply Real.sqrt_lt_sqrt (by exact_mod_cast dist2_nonneg d.current_location req.rider.current_location)
      exact_mod_cast hm.2 hki

/-- Witness for C1, on the demo pool: driver `dA` and `dB` are both at
distance 5 from the rider, `dC` at distance 7; the match picks `dA`. -/
theorem find_driver_selects_nearest_available_witness :
    NearestChoice pool1 rider1.current_location ride1 pool1' :=
  find_driver_selects_nearest_available pool1 req1 ride1 pool1' find_driver_demo

lemma rider_set_ride_none_eq {r : Rider} (h : r.current_ride = none) :
    { r with current_ride := none } = r := by
  obtain ⟨n, e, ni, i, cl, w, cr⟩ := r
  simp only at h
  rw [h]

/-- Claim C9 (confirmed): against a pool with no available vehicle,
`find_driver` fails (returns `None` after printing) and nothing is
mutated: the pool is returned untouched and `request_ride` leaves the
rider unchanged. -/
theorem find_driver_none_no_mutation (pool : List Driver) (rider : Rider)
    (dest : Point) (h : ∀ d ∈ pool, d.vehicle.status ≠ "available")
    (hr : rider.current_ride = none) :
    find_driver pool { rider := rider, destination := dest } = none ∧
    request_ride rider dest pool = (rider, pool) := by
  have hfd : find_driver pool { rider := rider, destination := dest } = none := by
    unfold find_driver
    rw [selectDriver_of_no_available h]
  refine ⟨hfd, ?_⟩
  unfold request_ride
  rw [if_pos hr, hfd, rider_set_ride_none_eq hr]

/-- Witness for C9: a one-driver pool whose vehicle has been taken
(`start_drive`). -/
def dU : Driver := { dA with vehicle := Vehicle.start_drive (Car "CAR-A") }

theorem find_driver_none_no_mutation_witness :
    find_driver [dU] { rider := rider1, destination := (4, 6) } = none ∧
    request_ride rider1 (4, 6) [dU] = (rider1, [dU]) :=
  find_driver_none_no_mutation [dU] rider1 (4, 6)
    (by
      intro d hd
      have hdu : d = dU := by simpa using hd
      rw [hdu]
      simp [dU, Vehicle.start_drive, Car])
    rfl

/-- Claim C10 (confirmed): `load_cash` adds exactly the amount when it is
strictly positive and is a no-op (on the whole rider record) otherwise;
it never fails. -/
theorem load_cash_spec (r : Rider) (a : ℚ) :
    (0 < a → r.load_cash a = { r with wallet := r.wallet + a }) ∧
    (a ≤ 0 → r.load_cash a = r) := by
  constructor
  · intro h
    unfold Rider.load_cash
    rw [if_pos h]
  · intro h
    unfold Rider.load_cash
    rw [if_neg (not_lt.mpr h)]

/-- Witness for C10 at amounts `5` and `-3`. -/
theorem load_cash_spec_witness :
    rider1.load_cash 5 = { rider1 with wallet := rider1.wallet + 5 } ∧
    rider1.load_cash (-3) = rider1 :=
  ⟨(load_cash_spec rider1 5).1 (by norm_num),
   (load_cash_spec rider1 (-3)).2 (by norm_num)⟩

/-- Claim C3, amended (corrected): on insufficient funds `end_ride` leaves
both wallets and the driver's ratings unchanged and reports the failure
(the `"Not enough balance!"` branch, no exception) — but it does mutate
the ride: the end timestamp is set before the balance check.  There is no
status field, so nothing else of the ride changes. -/
theorem end_ride_insufficient_keeps_wallets (r : Ride) (rider : Rider)
    (driver : Driver) (rating t : ℚ) (h : rider.wallet < r.estimated_fare) :
    end_ride r rider driver rating t =
      ({ r with end_time := some t }, rider, driver,
        EndOutcome.notEnoughBalance) := by
  unfold end_ride
  rw [if_neg (not_le.mpr h)]

def rider3 : Rider := { rider1 with wallet := 10 }

def r3 : Ride := { ride1 with start_time := some 1 }

/-- Witness for the amended C3: wallet 10 against fare 75. -/
theorem end_ride_insufficient_keeps_wallets_witness :
    end_ride r3 rider3 dA 5 2 =
      ({ r3 with end_time := some 2 }, rider3, dA,
        EndOutcome.notEnoughBalance) :=
  end_ride_insufficient_keeps_wallets r3 rider3 dA 5 2
    (by norm_num [rider3, rider1, r3, ride1])

/-- Counterexample to C3 as stated: on a started ride with wallet 10 and
fare 75, `end_ride` does NOT leave the whole ride unchanged — the end
timestamp is written before the balance check. -/
theorem end_ride_insufficient_mutates_ride :
    rider3.wallet < r3.estimated_fare ∧ (end_ride r3 rider3 dA 5 2).1 ≠ r3 := by
  constructor
  · norm_num [rider3, rider1, r3, ride1]
  · norm_num [end_ride, r3, ride1, rider3, rider1, Ride.mk.injEq]
    exact Option.some_ne_none 2

/-- Claim C4, amended (corrected): a successful match binds the returned
ride as the driver's active ride (and, through `request_ride`, as the
rider's), but the chosen driver's vehicle is NOT marked `'unavailable'` —
`find_driver` never touches the status, which stays `'available'`, so the
driver remains selectable by later matches. -/
theorem match_binds_active_ride_only (pool : List Driver) (req : RideRequest)
    (ride : Ride) (pool' : List Driver)
    (h : find_driver pool req = some (ride, pool'))
    (hr : req.rider.current_ride = none) :
    ∃ i, ∃ hi : i < pool.length, ∃ hi' : i < pool'.length,
      (pool.get ⟨i, hi⟩).vehicle.status = "available" ∧
      ride.driver = some (pool.get ⟨i, hi⟩).id ∧
      (pool'.get ⟨i, hi'⟩).current_ride = some ride ∧
      (pool'.get ⟨i, hi'⟩).vehicle = (pool.get ⟨i, hi⟩).vehicle ∧
      (pool'.get ⟨i, hi'⟩).vehicle.status = "available" ∧
      request_ride req.rider req.destination pool =
        ({ req.rider with current_ride := some ride }, pool') := by
  obtain ⟨i, d, hsel, hride, hpool⟩ := find_driver_eq_some h
  obtain ⟨hi, hget, hav, _⟩ := selectDriver_spec hsel
  subst hpool
  have hi' : i < (pool.set i { d with current_ride := some ride }).length := by
    rw [List.length_set]
    exact hi
  have hgot : (pool.set i { d with current_ride := some ride }).get ⟨i, hi'⟩ =
      { d with current_ride := some ride } := List.getElem_set_self ..
  refine ⟨i, hi, hi', by rw [hget]; exact hav, by rw [hget, hride], ?_, ?_, ?_, ?_⟩
  · rw [hgot]
  · rw [hgot, hget]
  · rw [hgot]
    exact hav
  · unfold request_ride
    rw [if_pos hr]
    have h' : find_driver pool { rider := req.rider, destination := req.destination } =
        some (ride, pool.set i { d with current_ride := some ride }) := h
    rw [h']

/-- Witness for the amended C4 on the demo pool. -/
theorem match_binds_active_ride_only_witness :
    ∃ i, ∃ hi : i < pool1.length, ∃ hi' : i < pool1'.length,
      (pool1.get ⟨i, hi⟩).vehicle.status = "available" ∧
      ride1.driver = some (pool1.get ⟨i, hi⟩).id ∧
      (pool1'.get ⟨i, hi'⟩).current_ride = some ride1 ∧
      (pool1'.get ⟨i, hi'⟩).vehicle = (pool1.get ⟨i, hi⟩).vehicle ∧
      (pool1'.get ⟨i, hi'⟩).vehicle.status = "available" ∧
      request_ride req1.rider req1.destination pool1 =
        ({ req1.rider with current_ride := some ride1 }, pool1') :=
  match_binds_active_ride_only pool1 req1 ride1 pool1' find_driver_demo rfl

/-- Counterexample to C4 as stated: after the demo match the chosen
driver's vehicle is still `'available'` and a second match against the
updated pool selects a driver again (in fact the same driver, id 2) —
the claim's "no subsequent match can select that driver" is false. -/
theorem match_does_not_reserve_vehicle :
    find_driver pool1 req1 = some (ride1, pool1') ∧
    ({ dA with current_ride := some ride1 }).vehicle.status = "available" ∧
    Option.map (fun x => x.1.driver) (find_driver pool1' req1) = some (some 2) := by
  refine ⟨find_driver_demo, rfl, ?_⟩
  norm_num [find_driver, selectDriver, findClosestAux, scanStep, pool1', req1,
    rider1, dA, dB, dC, Car, Bike, CNG, dist2, mkRide, Driver.accept_ride,
    Ride.set_driver, ride1]

/-- Claim C5, amended (corrected): on sufficient funds `end_ride` records
the end timestamp and settles, but the driver is NOT released: the
vehicle's status is not modified and the driver's active-ride reference
is left as it was.  There is no ride status field to transition. -/
theorem end_ride_success_no_release (r : Ride) (rider : Rider)
    (driver : Driver) (rating t : ℚ) (h : r.estimated_fare ≤ rider.wallet) :
    (end_ride r rider driver rating t).1 = { r with end_time := some t } ∧
    (end_ride r rider driver rating t).2.2.1.vehicle = driver.vehicle ∧
    (end_ride r rider driver rating t).2.2.1.current_ride = driver.current_ride ∧
    (end_ride r rider driver rating t).2.2.2 = EndOutcome.rideEnded := by
  unfold end_ride
  rw [if_pos h]
  exact ⟨rfl, rfl, rfl, rfl⟩

/-- Witness for the amended C5: fare 75 against wallet 500. -/
theorem end_ride_success_no_release_witness :
    (end_ride r3 rider1 dA 5 2).1 = { r3 with end_time := some 2 } ∧
    (end_ride r3 rider1 dA 5 2).2.2.1.vehicle = dA.vehicle ∧
    (end_ride r3 rider1 dA 5 2).2.2.1.current_ride = dA.current_ride ∧
    (end_ride r3 rider1 dA 5 2).2.2.2 = EndOutcome.rideEnded :=
  end_ride_success_no_release r3 rider1 dA 5 2
    (by norm_num [r3, ride1, rider1])

/-- A driver mid-ride: vehicle taken (`start_drive`) and an active ride. -/
def dBusy : Driver :=
  { dA with
    vehicle := Vehicle.start_drive (Car "CAR-A"),
    current_ride := some ride1 }

/-- Counterexample to C5 as stated: a successful `end_ride` leaves a busy
driver's vehicle `'unavailable'` and its active-ride reference set — the
driver is not released. -/
theorem end_ride_no_driver_release_cex :
    ride1.estimated_fare ≤ rider1.wallet ∧
    (end_ride ride1 rider1 dBusy 5 2).2.2.2 = EndOutcome.rideEnded ∧
    (end_ride ride1 rider1 dBusy 5 2).2.2.1.vehicle.status = "unavailable" ∧
    (end_ride ride1 rider1 dBusy 5 2).2.2.1.current_ride = some ride1 := by
  refine ⟨by norm_num [ride1, rider1], ?_, ?_, ?_⟩ <;>
    norm_num [end_ride, ride1, rider1, dBusy, dA, Car, Vehicle.start_drive,
      Driver.add_rating]

/-- Claim C6, amended (corrected): `end_ride` performs no rating
validation whatsoever — any rating, in or out of `[1,5]`, is appended to
the driver's ratings while the money moves; there is no
`InvalidRatingError` and no rollback. -/
theorem end_ride_appends_any_rating (r : Ride) (rider : Rider)
    (driver : Driver) (rating t : ℚ) (h : r.estimated_fare ≤ rider.wallet) :
    (end_ride r rider driver rating t).2.2.1.rating =
      driver.rating ++ [rating] ∧
    (end_ride r rider driver rating t).2.1.wallet =
      rider.wallet - r.estimated_fare ∧
    (end_ride r rider driver rating t).2.2.1.wallet =
      driver.wallet + r.estimated_fare ∧
    (end_ride r rider driver rating t).2.2.2 = EndOutcome.rideEnded := by
  unfold end_ride
  rw [if_pos h]
  exact ⟨rfl, rfl, rfl, rfl⟩

/-- Witness for the amended C6, with the out-of-range rating 6. -/
theorem end_ride_appends_any_rating_witness :
    (end_ride r3 rider1 dA 6 2).2.2.1.rating = dA.rating ++ [6] ∧
    (end_ride r3 rider1 dA 6 2).2.1.wallet = rider1.wallet - r3.estimated_fare ∧
    (end_ride r3 rider1 dA 6 2).2.2.1.wallet = dA.wallet + r3.estimated_fare ∧
    (end_ride r3 rider1 dA 6 2).2.2.2 = EndOutcome.rideEnded :=
  end_ride_appends_any_rating r3 rider1 dA 6 2
    (by norm_num [r3, ride1, rider1])

/-- Counterexample to C6 as stated: rating 6 lies outside `[1,5]`, yet the
settlement goes through: the rating is appended and the fare transferred
(wallet 500 → 425), with no error and no rollback. -/
theorem end_ride_rating_validation_cex :
    ¬ (1 ≤ (6 : ℚ) ∧ (6 : ℚ) ≤ 5) ∧
    ride1.estimated_fare ≤ rider1.wallet ∧
    (end_ride ride1 rider1 dA 6 2).2.2.1.rating = [6] ∧
    (end_ride ride1 rider1 dA 6 2).2.1.wallet = 425 ∧
    (end_ride ride1 rider1 dA 6 2).2.2.2 = EndOutcome.rideEnded := by
  refine ⟨by norm_num, by norm_num [ride1, rider1], ?_, ?_, ?_⟩ <;>
    norm_num [end_ride, ride1, rider1, dA, Driver.add_rating]

/-- Claim C7 (code bug, flagged by the spec itself): the code has no ride
status and no transition guard.  Calling `start_ride` a second time
silently overwrites the start timestamp, and `end_ride` on a never-started
ride (start timestamp still unset) settles normally — no
`InvalidTransitionError` exists anywhere in the program. -/
theorem lifecycle_guard_missing :
    ride1.start_time = none ∧
    Ride.start_ride (Ride.start_ride ride1 1) 2 =
      { ride1 with start_time := some 2 } ∧
    (end_ride ride1 rider1 dA 5 3).2.2.2 = EndOutcome.rideEnded ∧
    (end_ride ride1 rider1 dA 5 3).2.1.wallet = 425 := by
  refine ⟨rfl, rfl, ?_, ?_⟩ <;>
    norm_num [end_ride, ride1, rider1, dA, Driver.add_rating]

/-- Claim C2 (confirmed): a ride's estimated fare is
`round(EuclideanDistance(start, end) * rate, 2)`, computed from the
creation-time inputs (and equal to what `calculate_fare` would return);
neither `start_ride` nor `end_ride` changes it, and on settlement the
rider is charged and the driver credited exactly this stored value —
nothing is recomputed from elapsed time or later locations (the arbitrary
`t`, `t'`, `rider`, `driver` here cannot influence the amount). -/
theorem estimated_fare_fixed_at_creation (s e : Point) (riderId : ℕ)
    (v : Vehicle) (rider : Rider) (driver : Driver) (rating t t' : ℚ)
    (r : Ride) (hr : r = mkRide s e riderId v) (hrate : 0 ≤ v.rate)
    (hw : r.estimated_fare ≤ rider.wallet) :
    r.estimated_fare = round2 (euclidDist s e * (v.rate : ℝ)) ∧
    r.calculate_fare = r.estimated_fare ∧
    (r.start_ride t).estimated_fare = r.estimated_fare ∧
    ((end_ride r rider driver rating t').1).estimated_fare =
      r.estimated_fare ∧
    ((end_ride r rider driver rating t').2.1).wallet =
      rider.wallet - r.estimated_fare ∧
    ((end_ride r rider driver rating t').2.2.1).wallet =
      driver.wallet + r.estimated_fare := by
  subst hr
  refine ⟨fareQ_eq s e v.rate hrate, rfl, rfl, ?_, ?_, ?_⟩ <;>
    · unfold end_ride Driver.add_rating
      rw [if_pos hw]

/-- The ride of the demo match before a driver is attached. -/
def ride0 : Ride := mkRide (1, 2) (4, 6) 1 (Car "CAR-A")

/-- Witness for C2: the demo ride, fare `75.00`. -/
theorem estimated_fare_fixed_at_creation_witness :
    ride0.estimated_fare =
      round2 (euclidDist (1, 2) (4, 6) * ((Car "CAR-A").rate : ℝ)) ∧
    ride0.calculate_fare = ride0.estimated_fare ∧
    (ride0.start_ride 1).estimated_fare = ride0.estimated_fare ∧
    ((end_ride ride0 rider1 dA 5 2).1).estimated_fare =
      ride0.estimated_fare ∧
    ((end_ride ride0 rider1 dA 5 2).2.1).wallet =
      rider1.wallet - ride0.estimated_fare ∧
    ((end_ride ride0 rider1 dA 5 2).2.2.1).wallet =
      dA.wallet + ride0.estimated_fare :=
  estimated_fare_fixed_at_creation (1, 2) (4, 6) 1 (Car "CAR-A") rider1 dA
    5 1 2 ride0 rfl (by norm_num [Car])
    (by norm_num [ride0, mkRide, Car, fareQ_demo, rider1])

/-- A wallet-affecting step of the system: a cash load or an attempted
settlement of some ride against this rider. -/
inductive WalletOp where
  | load (amount : ℚ) : WalletOp
  | settle (r : Ride) (driver : Driver) (rating t : ℚ) : WalletOp

/-- The rider after one wallet-affecting operation. -/
def applyOp (rider : Rider) : WalletOp → Rider
  | WalletOp.load a => rider.load_cash a
  | WalletOp.settle r d rating t => (end_ride r rider d rating t).2.1

lemma applyOp_nonneg (rider : Rider) (op : WalletOp) (h : 0 ≤ rider.wallet) :
    0 ≤ (applyOp rider op).wallet := by
  cases op with
  | load a =>
    show 0 ≤ (rider.load_cash a).wallet
    unfold Rider.load_cash
    by_cases ha : 0 < a
    · rw [if_pos ha]
      show 0 ≤ rider.wallet + a
      linarith
    · rw [if_neg ha]
      exact h
  | settle r d rating t =>
    show 0 ≤ ((end_ride r rider d rating t).2.1).wallet
    unfold end_ride
    by_cases hw : r.estimated_fare ≤ rider.wallet
    · rw [if_pos hw]
      show 0 ≤ rider.wallet - r.estimated_fare
      linarith
    · rw [if_neg hw]
      exact h

lemma foldl_applyOp_nonneg (ops : List WalletOp) :
    ∀ rider : Rider, 0 ≤ rider.wallet →
      0 ≤ (ops.foldl applyOp rider).wallet := by
  induction ops with
  | nil =>
    intro rider h
    exact h
  | cons op rest ih =>
    intro rider h
    exact ih (applyOp rider op) (applyOp_nonneg rider op h)

/-- Claim C8 (confirmed): starting from a non-negative wallet, no sequence
of cash loads and settlements ever drives the rider's wallet negative (all
intermediate states, via `take n`); a settlement deducts the fare exactly
when the wallet covers it and otherwise leaves the rider untouched,
signalling the insufficient-balance branch. -/
theorem rider_wallet_never_negative (rider : Rider) (ops : List WalletOp)
    (n : ℕ) (r : Ride) (driver : Driver) (rating t : ℚ)
    (h0 : 0 ≤ rider.wallet) :
    0 ≤ ((ops.take n).foldl applyOp rider).wallet ∧
    (r.estimated_fare ≤ rider.wallet →
      (end_ride r rider driver rating t).2.1.wallet =
        rider.wallet - r.estimated_fare) ∧
    (rider.wallet < r.estimated_fare →
      (end_ride r rider driver rating t).2.1 = rider ∧
      (end_ride r rider driver rating t).2.2.2 =
        EndOutcome.notEnoughBalance) := by
  refine ⟨foldl_applyOp_nonneg (ops.take n) rider h0, ?_, ?_⟩
  · intro hw
    unfold end_ride
    rw [if_pos hw]
  · intro hlt
    unfold end_ride
    rw [if_neg (not_le.mpr hlt)]
    exact ⟨rfl, rfl⟩

def rider8 : Rider := { rider1 with wallet := 0 }

def ops8 : List WalletOp :=
  [WalletOp.load 100, WalletOp.settle ride1 dA 5 1, WalletOp.load (-5),
    WalletOp.settle ride1 dA 5 2]

/-- Witness for C8: wallet 0, a load of 100, a settlement of fare 75, a
rejected load of −5 and a failing settlement. -/
theorem rider_wallet_never_negative_witness :
    0 ≤ ((ops8.take 4).foldl applyOp rider8).wallet ∧
    (ride1.estimated_fare ≤ rider8.wallet →
      (end_ride ride1 rider8 dA 5 2).2.1.wallet =
        rider8.wallet - ride1.estimated_fare) ∧
    (rider8.wallet < ride1.estimated_fare →
      (end_ride ride1 rider8 dA 5 2).2.1 = rider8 ∧
      (end_ride ride1 rider8 dA 5 2).2.2.2 =
        EndOutcome.notEnoughBalance) :=
  rider_wallet_never_negative rider8 ops8 4 ride1 dA 5 2
    (by norm_num [rider8, rider1])
